import Mathlib

/-!
Shallow embedding of the event log of
`src/apps/src/lib/node/ledger/events/log.rs`.

The Rust linked chain `Option<Arc<LogNode>>` is modelled as a
`List LogEntry` (the empty list standing for `None`, `entry :: rest`
for a node whose `next` chain is `rest`); block heights (`BlockHeight`,
a `u64` newtype) are modelled as `Nat`, since no height arithmetic in
the embedded code can overflow `u64` on the inputs considered.  The
reader-side operations take `&self` in the source and only ever acquire
a read lock, so they are embedded as pure functions of the lock-protected
state `EventLogInnerMux`.
-/

/-- Block heights, `namada::types::storage::BlockHeight`, a `u64` newtype. -/
abbrev BlockHeight := Nat

/-- Modelled from the spec: the event type tag of
`crate::node::ledger::events::Event` (the `events` module itself is not
among the provided sources).  The spec calls it "an enumerated category,
e.g. Accepted, Applied"; the two variants exercised by the repository
tests are kept. -/
inductive EventType where
  | Accepted
  | Applied
deriving DecidableEq, Repr

/-- Modelled from the spec: the severity/visibility level of an event
("block-level vs transaction-level"). -/
inductive EventLevel where
  | Block
  | Tx
deriving DecidableEq, Repr

/-- Modelled from the spec: an `Event` is an immutable record with a type
tag, a level, and a mapping from attribute name to string value; events
compare by value.  The attribute map is modelled as an association list. -/
structure Event where
  event_type : EventType
  level : EventLevel
  attributes : List (String × String)
deriving DecidableEq, Repr

/-- An entry in the event log (`LogEntry` in the source). -/
structure LogEntry where
  block_height : BlockHeight
  events : List Event
deriving DecidableEq, Repr

/-- Soft lock on the maximum number of events the event log can hold
(`MAX_LOG_EVENTS` in the source). -/
def MAX_LOG_EVENTS : Nat := 50000

/-- Soft lock on the height span of the event log
(`LOG_BLOCK_HEIGHT_DIFF` in the source). -/
def LOG_BLOCK_HEIGHT_DIFF : Nat := 1000

/-- The lock-protected state of the event log (`EventLogInnerMux`).
`head = []` models `head == None`. -/
structure EventLog where
  num_events : Nat
  oldest_height : BlockHeight
  head : List LogEntry
deriving DecidableEq, Repr

/-- A snapshot of the log state (`EventLogSnapshot`); its `head` is the
(nonempty) chain captured from the live log. -/
structure EventLogSnapshot where
  oldest_height : BlockHeight
  num_events : Nat
  head : List LogEntry
deriving DecidableEq, Repr

/-- `EventLog::new`: an empty log. -/
def EventLog.new : EventLog :=
  { num_events := 0, oldest_height := 0, head := [] }

/-- `EventLog::prune`: in the source this function is a stub — its body
only mentions `MAX_LOG_EVENTS`, `LOG_BLOCK_HEIGHT_DIFF` and its arguments
to silence unused warnings, and carries a `TODO` comment.  It performs no
state change, so it is the identity on the log state. -/
def EventLog.prune (s : EventLog) (head : List LogEntry)
    (num_events : Nat) : EventLog :=
  let _ := MAX_LOG_EVENTS
  let _ := LOG_BLOCK_HEIGHT_DIFF
  let _ := (head, num_events)
  s

/-- `EventLog::add`: a no-op on an empty batch; otherwise bumps
`num_events` by the batch length, prepends a node holding the entry to
the chain, then (after notifying listeners, which does not change the
log state) calls `prune` with the just-captured head and event count. -/
def EventLog.add (s : EventLog) (entry : LogEntry) : EventLog :=
  if entry.events.isEmpty then s
  else
    let s1 : EventLog :=
      { s with
        num_events := s.num_events + entry.events.length,
        head := entry :: s.head }
    s1.prune s1.head s1.num_events

/-- `EventLog::snapshot`: `none` when the chain is empty, else a copy of
the three header fields. -/
def EventLog.snapshot (s : EventLog) : Option EventLogSnapshot :=
  match s.head with
  | [] => none
  | e :: rest =>
      some { oldest_height := s.oldest_height,
             num_events := s.num_events,
             head := e :: rest }

/-- Folding a sequence of `add` calls over a log state, in call order. -/
def addAll (s : EventLog) (entries : List LogEntry) : EventLog :=
  entries.foldl EventLog.add s

/-- The apostrophe character used as the literal delimiter in the query
grammar. -/
def quoteChar : Char := Char.ofNat 39

/-- Modelled from the spec: the compiled form of a query
(`dumb_queries::QueryMatcher`; the `dumb_queries` module is not among
the provided sources).  Per the spec it is "a conjunction of
attribute=literal terms plus an implicit event-type term"; each term is
kept as a `(key, value)` pair. -/
structure QueryMatcher where
  terms : List (String × String)
deriving DecidableEq, Repr

/-- Modelled from the spec: the view of an event seen by the matcher —
its type tag and its attribute map.  The implicit event-type term
`tm.event = NewBlock` holds of every event, and each attribute `k = v`
is exposed under the key `tag.k` where `tag` names the event type
(so `accepted.hash = DEADBEEF` selects `Accepted` events carrying that
`hash` attribute, matching the spec's worked example). -/
def Event.typeTag (e : Event) : String :=
  match e.event_type with
  | .Accepted => "accepted"
  | .Applied => "applied"

/-- Modelled from the spec: the attribute view of one event (see
`Event.typeTag`). -/
def Event.queryView (e : Event) : List (String × String) :=
  ("tm.event", "NewBlock")
    :: e.attributes.map (fun kv => (e.typeTag ++ "." ++ kv.1, kv.2))

/-- Modelled from the spec: a matcher holds of an event when every
conjunct's key is present in the event's view with the conjunct's
value ("all terms must match for an event to be yielded"). -/
def QueryMatcher.matches (m : QueryMatcher) (e : Event) : Bool :=
  m.terms.all fun t => e.queryView.lookup t.1 == some t.2

/-- The query-term separator of the grammar. -/
def andSep : List Char := " AND ".toList

/-- Does `pat` occur at the start of `cs`? -/
def beginsWith : List Char → List Char → Bool
  | [], _ => true
  | _ :: _, [] => false
  | p :: ps, c :: cs => p == c && beginsWith ps cs

/-- Split a character list at every occurrence of `andSep`.  Structural
recursion on an explicit fuel (initialised to the list length, which
bounds the number of steps). -/
def splitOnAndGo : Nat → List Char → List Char → List (List Char)
  | _, [], acc => [acc.reverse]
  | 0, cs, acc => [acc.reverse ++ cs]
  | fuel + 1, c :: cs, acc =>
      if beginsWith andSep (c :: cs) then
        acc.reverse :: splitOnAndGo fuel (cs.drop 4) []
      else
        splitOnAndGo fuel cs (c :: acc)

/-- Split a query string into its conjunct substrings. -/
def splitOnAnd (cs : List Char) : List (List Char) :=
  splitOnAndGo cs.length cs []

/-- Modelled from the spec: parse one `key=quoted-literal` conjunct.
The key must be nonempty and contain no `=`; the value must be wrapped
in quotes with no quote inside. -/
def parseTerm (cs : List Char) : Option (String × String) :=
  match cs.span (· ≠ '=') with
  | (k, '=' :: v) =>
      if k ≠ [] ∧ '=' ∉ v ∧ 2 ≤ v.length ∧ v.head? = some quoteChar ∧
          v.getLast? = some quoteChar ∧ quoteChar ∉ (v.drop 1).dropLast
      then some (String.mk k, String.mk ((v.drop 1).dropLast))
      else none
  | _ => none

/-- Parse every conjunct, failing if any fails. -/
def parseTerms : List (List Char) → Option (List (String × String))
  | [] => some []
  | t :: ts =>
      match parseTerm t, parseTerms ts with
      | some p, some ps => some (p :: ps)
      | _, _ => none

/-- Modelled from the spec: `dumb_queries::QueryMatcher::parse` — parse
a filter string into a matcher, `none` on unrecognised syntax. -/
def QueryMatcher.parse (q : String) : Option QueryMatcher :=
  (parseTerms (splitOnAnd q.toList)).map QueryMatcher.mk

/-- States reachable from `EventLog::new` by the log's own mutating
operations (`add` and `prune`). -/
inductive Reachable : EventLog → Prop where
  | new : Reachable EventLog.new
  | add (s : EventLog) (entry : LogEntry) :
      Reachable s → Reachable (s.add entry)
  | prune (s : EventLog) (h : List LogEntry) (n : Nat) :
      Reachable s → Reachable (s.prune h n)

/-- The state of an `EventLogIterator`: an index into the current node's
event batch, the compiled query, and the remaining node chain (`[]`
models a `None` node pointer). -/
structure EventLogIterator where
  index : Nat
  query : QueryMatcher
  node : List LogEntry
deriving DecidableEq, Repr

/-- The full sequence of events produced by repeatedly calling
`EventLogIterator::next` until it returns `None`, starting from node
chain `es` and batch index `i`.  One unfolding step per loop iteration
of the source: when the current batch still has an event at `i`, the
index advances and the event is emitted exactly when the query matches
it; when the batch is exhausted, the iterator moves to the next older
node and resets the index; when there is no node left, iteration ends.
Totality of this definition is the termination of the iterator. -/
def iterYield (q : QueryMatcher) : List LogEntry → Nat → List Event
  | [], _ => []
  | e :: rest, i =>
      match h : e.events[i]? with
      | some ev =>
          (if q.matches ev then [ev] else []) ++ iterYield q (e :: rest) (i + 1)
      | none => iterYield q rest 0
termination_by es i => (es.length, (es.headD { block_height := 0, events := [] }).events.length - i)
decreasing_by
  · have hlt : i < e.events.length := (List.getElem?_eq_some.mp h).1
    simp only [List.headD_cons]
    apply Prod.Lex.right
    omega
  · apply Prod.Lex.left
    simp

/-- The event sequence produced by an iterator state. -/
def iterEvents (it : EventLogIterator) : List Event :=
  iterYield it.query it.node it.index

/-- Error returned by the iteration methods (`IterError`). -/
inductive IterError where
  | InvalidQuery
  | EmptyLog
  | Timeout
deriving DecidableEq, Repr

/-- `EventLog::try_iter_with_matcher`: takes a snapshot (failing with
`EmptyLog` when there is none) and returns an iterator positioned at the
snapshot's head with index 0. -/
def EventLog.try_iter_with_matcher (s : EventLog) (matcher : QueryMatcher) :
    Except IterError EventLogIterator :=
  match s.snapshot with
  | none => .error .EmptyLog
  | some snap => .ok { index := 0, query := matcher, node := snap.head }

/-- `EventLog::try_iter`: parses the query (failing with `InvalidQuery`
on a malformed string), then defers to `try_iter_with_matcher`. -/
def EventLog.try_iter (s : EventLog) (query : String) :
    Except IterError EventLogIterator :=
  match QueryMatcher.parse query with
  | none => .error .InvalidQuery
  | some matcher => s.try_iter_with_matcher matcher

/-- The retry loop inside `EventLog::wait_iter`, embedded over an
explicit trace: `wakes` lists the log states observed at the successive
notifier wake-ups that occur before the deadline, and `sfinal` is the
log state at the moment the deadline elapses.  On each wake-up the loop
attempts `try_iter_with_matcher`; success breaks out, `EmptyLog` loops
again, any other failure is returned.  An exhausted trace means
`tokio::time::timeout_at` fired, upon which `wait_iter` makes one final
unconditional `try_iter_with_matcher` attempt on the current state. -/
def waitLoop (sfinal : EventLog) (m : QueryMatcher) :
    List EventLog → Except IterError EventLogIterator
  | [] => sfinal.try_iter_with_matcher m
  | s :: rest =>
      match s.try_iter_with_matcher m with
      | .ok iter => .ok iter
      | .error .EmptyLog => waitLoop sfinal m rest
      | .error e => .error e

/-- `EventLog::wait_iter`, embedded over a wake-up trace (see
`waitLoop`): parses the matcher once, failing with `InvalidQuery`
immediately on bad input, then runs the wait/retry loop with the
deadline fallback. -/
def EventLog.wait_iter (wakes : List EventLog) (sfinal : EventLog)
    (query : String) : Except IterError EventLogIterator :=
  match QueryMatcher.parse query with
  | none => .error .InvalidQuery
  | some matcher => waitLoop sfinal matcher wakes

/-! ### Sample data used by concrete witnesses and counterexamples -/

/-- A sample `Accepted` event carrying a `hash` attribute, as in the
repository's `mock_tx_events`. -/
def evA : Event :=
  { event_type := .Accepted, level := .Block,
    attributes := [("hash", "DEADBEEF")] }

/-- A sample `Applied` event carrying a `hash` attribute. -/
def evB : Event :=
  { event_type := .Applied, level := .Block,
    attributes := [("hash", "DEADBEEF")] }

/-- The quote character as a one-character string, used to assemble
concrete query strings. -/
def sqt : String := quoteChar.toString

/-- A concrete query consisting of the implicit event-type term alone. -/
def q1 : String := "tm.event=" ++ sqt ++ "NewBlock" ++ sqt

/-- The query exercised by the repository tests. -/
def q2 : String := q1 ++ " AND accepted.hash=" ++ sqt ++ "DEADBEEF" ++ sqt

/-- The matcher `q1` compiles to. -/
def mm1 : QueryMatcher := { terms := [("tm.event", "NewBlock")] }

/-- The matcher `q2` compiles to. -/
def mm2 : QueryMatcher :=
  { terms := [("tm.event", "NewBlock"), ("accepted.hash", "DEADBEEF")] }

/-- A sample log entry at height 1 with two events. -/
def en1 : LogEntry := { block_height := 1, events := [evA, evB] }

/-- A sample log entry at height 2 with one event. -/
def en2 : LogEntry := { block_height := 2, events := [evA] }

/-- A sample populated log state: `en1` then `en2` added to a new log. -/
def sampleLog : EventLog := addAll EventLog.new [en1, en2]

/-! ### Helper lemmas about the embedded operations -/

/-- `add` on a nonempty batch: the three header fields after the call. -/
lemma add_nonempty (s : EventLog) (entry : LogEntry)
    (h : entry.events ≠ []) :
    s.add entry =
      { num_events := s.num_events + entry.events.length,
        oldest_height := s.oldest_height,
        head := entry :: s.head } := by
  simp [EventLog.add, EventLog.prune, List.isEmpty_iff, h]

/-- The chain after a sequence of `add` calls: the non-empty entries,
newest first, on top of the original chain. -/
lemma addAll_head (es : List LogEntry) :
    ∀ s : EventLog, (addAll s es).head =
      (es.filter (fun e => !e.events.isEmpty)).reverse ++ s.head := by
  induction es with
  | nil => intro s; simp [addAll]
  | cons e rest ih =>
      intro s
      have hstep : addAll s (e :: rest) = addAll (s.add e) rest := rfl
      rw [hstep, ih (s.add e), List.filter_cons]
      by_cases he : e.events = []
      · simp [EventLog.add, he]
      · rw [add_nonempty s e he]
        simp [List.isEmpty_iff, he]

/-- `num_events` after a sequence of `add` calls grows by the total
batch length (empty batches contribute zero either way). -/
lemma addAll_num_events (es : List LogEntry) :
    ∀ s : EventLog, (addAll s es).num_events =
      s.num_events + (es.map (fun e => e.events.length)).sum := by
  induction es with
  | nil => intro s; simp [addAll]
  | cons e rest ih =>
      intro s
      have hstep : addAll s (e :: rest) = addAll (s.add e) rest := rfl
      rw [hstep, ih (s.add e)]
      by_cases he : e.events = []
      · simp [EventLog.add, he]
      · rw [add_nonempty s e he]
        simp [Nat.add_assoc]

/-- No operation of the log ever writes `oldest_height`: it keeps its
initial value through any sequence of `add` calls. -/
lemma addAll_oldest_height (es : List LogEntry) :
    ∀ s : EventLog, (addAll s es).oldest_height = s.oldest_height := by
  induction es with
  | nil => intro s; simp [addAll]
  | cons e rest ih =>
      intro s
      have hstep : addAll s (e :: rest) = addAll (s.add e) rest := rfl
      rw [hstep, ih (s.add e)]
      by_cases he : e.events = []
      · simp [EventLog.add, he]
      · rw [add_nonempty s e he]

/-- Every reachable state is unchanged by `prune`, and `Reachable` is
closed under `addAll`. -/
lemma reachable_addAll (es : List LogEntry) :
    ∀ s : EventLog, Reachable s → Reachable (addAll s es) := by
  induction es with
  | nil => intro s hs; exact hs
  | cons e rest ih =>
      intro s hs
      exact ih (s.add e) (Reachable.add s e hs)

/-! ### Iterator lemmas -/

/-- The iterator yields nothing once the node pointer is empty. -/
lemma iterYield_nil (q : QueryMatcher) (i : Nat) : iterYield q [] i = [] := by
  rw [iterYield]

/-- One loop step of `next` on an in-range index. -/
lemma iterYield_step_some (q : QueryMatcher) (e : LogEntry)
    (rest : List LogEntry) (i : Nat) (ev : Event)
    (h : e.events[i]? = some ev) :
    iterYield q (e :: rest) i =
      (if q.matches ev then [ev] else []) ++ iterYield q (e :: rest) (i + 1) := by
  rw [iterYield]
  split
  · next ev2 heq =>
      rw [h] at heq
      injection heq with hev
      rw [hev]
  · next heq => rw [h] at heq; cases heq

/-- One loop step of `next` on an exhausted batch. -/
lemma iterYield_step_none (q : QueryMatcher) (e : LogEntry)
    (rest : List LogEntry) (i : Nat) (h : e.events[i]? = none) :
    iterYield q (e :: rest) i = iterYield q rest 0 := by
  rw [iterYield]
  split
  · next ev2 heq => rw [h] at heq; cases heq
  · rfl

/-- The iterator drains the current batch from the current index (in
batch order, filtered), then continues with the next older node. -/
lemma iterYield_cons (q : QueryMatcher) (e : LogEntry)
    (rest : List LogEntry) :
    ∀ i, iterYield q (e :: rest) i =
      ((e.events.drop i).filter q.matches) ++ iterYield q rest 0 := by
  suffices H : ∀ n i, e.events.length - i ≤ n →
      iterYield q (e :: rest) i =
        ((e.events.drop i).filter q.matches) ++ iterYield q rest 0 by
    exact fun i => H (e.events.length - i) i le_rfl
  intro n
  induction n with
  | zero =>
      intro i hle
      have hlen : e.events.length ≤ i := by omega
      rw [iterYield_step_none q e rest i (List.getElem?_eq_none hlen)]
      simp [List.drop_eq_nil_of_le hlen]
  | succ n ih =>
      intro i hle
      cases h : e.events[i]? with
      | none =>
          have hlen : e.events.length ≤ i := List.getElem?_eq_none_iff.mp h
          rw [iterYield_step_none q e rest i h]
          simp [List.drop_eq_nil_of_le hlen]
      | some ev =>
          obtain ⟨hlt, hval⟩ := List.getElem?_eq_some.mp h
          have hdrop : e.events.drop i = ev :: e.events.drop (i + 1) := by
            rw [List.drop_eq_getElem_cons hlt, hval]
          rw [iterYield_step_some q e rest i ev h, ih (i + 1) (by omega),
            hdrop, List.filter_cons]
          by_cases hm : q.matches ev = true <;> simp [hm]

/-- From index 0, the iterator yields exactly the matching events of
the flattened chain, in chain order and batch order. -/
lemma iterYield_zero (q : QueryMatcher) :
    ∀ es : List LogEntry,
      iterYield q es 0 = ((es.map LogEntry.events).flatten).filter q.matches := by
  intro es
  induction es with
  | nil => simp [iterYield_nil]
  | cons e rest ih =>
      rw [iterYield_cons q e rest 0, ih]
      simp [List.filter_append]

/-- `try_iter_with_matcher` can only fail with `EmptyLog`. -/
lemma try_iter_with_matcher_error (s : EventLog) (m : QueryMatcher)
    (e : IterError) (h : s.try_iter_with_matcher m = .error e) :
    e = .EmptyLog := by
  unfold EventLog.try_iter_with_matcher at h
  cases hsnap : s.snapshot with
  | none => rw [hsnap] at h; injection h with h2; exact h2.symm
  | some snap => rw [hsnap] at h; cases h

/-- The wait/retry loop can only fail with `EmptyLog`. -/
lemma waitLoop_error (sfinal : EventLog) (m : QueryMatcher) :
    ∀ (wakes : List EventLog) (e : IterError),
      waitLoop sfinal m wakes = .error e → e = .EmptyLog := by
  intro wakes
  induction wakes with
  | nil => intro e h; exact try_iter_with_matcher_error _ _ _ h
  | cons s rest ih =>
      intro e h
      unfold waitLoop at h
      cases htry : s.try_iter_with_matcher m with
      | ok it => rw [htry] at h; cases h
      | error e2 =>
          have he2 := try_iter_with_matcher_error _ _ _ htry
          subst he2
          rw [htry] at h
          exact ih e h

/-- When every wake-up observes an empty log, the loop falls through to
the final unconditional attempt. -/
lemma waitLoop_all_empty (sfinal : EventLog) (m : QueryMatcher) :
    ∀ wakes : List EventLog, (∀ s ∈ wakes, s.head = []) →
      waitLoop sfinal m wakes = sfinal.try_iter_with_matcher m := by
  intro wakes
  induction wakes with
  | nil => intro _; rfl
  | cons s rest ih =>
      intro hempty
      have hs : s.head = [] := hempty s (by simp)
      have htry : s.try_iter_with_matcher m = .error .EmptyLog := by
        simp [EventLog.try_iter_with_matcher, EventLog.snapshot, hs]
      unfold waitLoop
      rw [htry]
      exact ih (fun s2 hs2 => hempty s2 (by simp [hs2]))

/-- A non-empty log always yields a snapshot copying the three header
fields. -/
lemma snapshot_of_ne (s : EventLog) (h : s.head ≠ []) :
    s.snapshot = some
      { oldest_height := s.oldest_height,
        num_events := s.num_events,
        head := s.head } := by
  cases hh : s.head with
  | nil => exact absurd hh h
  | cons e rest => simp [EventLog.snapshot, hh]

/-! ### Claim theorems -/

/-- C1: the claim states that after every `add` the retained log satisfies
both soft limits (`num_events ≤ MAX_LOG_EVENTS`, height span
`≤ LOG_BLOCK_HEIGHT_DIFF`), with `prune` evicting the oldest entries
whenever a limit is exceeded.  The code does not do this: `prune` is a
TODO stub that never evicts anything, so after adding entries at heights
0 and 1001 both remain retained although the span 1001 exceeds
`LOG_BLOCK_HEIGHT_DIFF = 1000`, and a single entry of
`MAX_LOG_EVENTS + 1` events leaves `num_events` above `MAX_LOG_EVENTS`. -/
theorem prune_stub_violates_soft_limits :
    ((addAll EventLog.new
        [{ block_height := 0, events := [evA] },
         { block_height := 1001, events := [evA] }]).head.map
          LogEntry.block_height = [1001, 0]
      ∧ 1001 - 0 > LOG_BLOCK_HEIGHT_DIFF)
    ∧ (∀ n : Nat, MAX_LOG_EVENTS < n →
        (EventLog.new.add
          { block_height := 0, events := List.replicate n evA }).num_events = n)
    ∧ ∀ (s : EventLog) (hd : List LogEntry) (n : Nat),
        EventLog.prune s hd n = s := by
  refine ⟨⟨rfl, by decide⟩, ?_, fun s hd n => rfl⟩
  intro n hn
  have hlen : (List.replicate n evA).length = n := by simp
  have hne : List.replicate n evA ≠ [] := by
    intro hcon
    rw [hcon] at hlen
    simp at hlen
    omega
  rw [add_nonempty _ _ hne]
  show EventLog.new.num_events + (List.replicate n evA).length = n
  rw [hlen]
  show 0 + n = n
  omega

/-- C1 witness: the event-count limit is exceeded at a concrete batch of
`MAX_LOG_EVENTS + 1` events, and nothing is evicted. -/
theorem prune_stub_violates_soft_limits_witness :
    MAX_LOG_EVENTS < 50001
    ∧ (EventLog.new.add
        { block_height := 0, events := List.replicate 50001 evA }).num_events
      = 50001 :=
  ⟨by decide, prune_stub_violates_soft_limits.2.1 50001 (by decide)⟩

/-- C2: for every sequence of `add` calls with non-empty batches and
every matcher, `try_iter_with_matcher` (and `try_iter` on any query
compiling to that matcher) returns an iterator that yields exactly the
matching events of the snapshot chain — non-matching events skipped —
visiting entries newest-first (the reverse of insertion order), within
each entry in batch order; the yield sequence is a finite list,
produced by draining the chain down to the oldest node. -/
theorem try_iter_yields_filtered_newest_first
    (entries : List LogEntry) (m : QueryMatcher)
    (hne : entries ≠ []) (hbatch : ∀ e ∈ entries, e.events ≠ []) :
    ∃ it : EventLogIterator,
      (addAll EventLog.new entries).try_iter_with_matcher m = .ok it
      ∧ (∀ q : String, QueryMatcher.parse q = some m →
          (addAll EventLog.new entries).try_iter q = .ok it)
      ∧ it.index = 0 ∧ it.node = entries.reverse
      ∧ iterEvents it
        = ((entries.reverse.map LogEntry.events).flatten).filter m.matches := by
  have hfilter : entries.filter (fun e => !e.events.isEmpty) = entries := by
    rw [List.filter_eq_self]
    intro e he
    simpa [List.isEmpty_iff] using hbatch e he
  have hhead : (addAll EventLog.new entries).head = entries.reverse := by
    rw [addAll_head entries EventLog.new, hfilter]
    simp [EventLog.new]
  have hne2 : (addAll EventLog.new entries).head ≠ [] := by
    rw [hhead]
    intro hcon
    exact hne (List.reverse_eq_nil_iff.mp hcon)
  have hmain : (addAll EventLog.new entries).try_iter_with_matcher m
      = .ok { index := 0, query := m, node := entries.reverse } := by
    unfold EventLog.try_iter_with_matcher
    rw [snapshot_of_ne _ hne2, hhead]
  refine ⟨{ index := 0, query := m, node := entries.reverse }, hmain, ?_, rfl, rfl, ?_⟩
  · intro q hq
    unfold EventLog.try_iter
    rw [hq]
    exact hmain
  · show iterYield m entries.reverse 0 = _
    exact iterYield_zero m entries.reverse

/-- C2 witness: the theorem applied to two concrete entries and the
matcher of the repository's test query. -/
theorem try_iter_yields_filtered_newest_first_witness :
    (([en1, en2] : List LogEntry) ≠ []
      ∧ ∀ e ∈ ([en1, en2] : List LogEntry), e.events ≠ [])
    ∧ ∃ it : EventLogIterator,
        (addAll EventLog.new [en1, en2]).try_iter_with_matcher mm2 = .ok it
        ∧ (∀ q : String, QueryMatcher.parse q = some mm2 →
            (addAll EventLog.new [en1, en2]).try_iter q = .ok it)
        ∧ it.index = 0 ∧ it.node = ([en1, en2] : List LogEntry).reverse
        ∧ iterEvents it
          = ((([en1, en2] : List LogEntry).reverse.map
              LogEntry.events).flatten).filter mm2.matches :=
  ⟨⟨by decide, by decide⟩,
    try_iter_yields_filtered_newest_first [en1, en2] mm2 (by decide) (by decide)⟩

/-- C3: the claim states that `oldest_height` always equals the height
of the oldest retained entry.  The code never writes `oldest_height`
after construction (neither `add` nor the stub `prune` touches it), so
after adding a single entry at height 5 the oldest retained entry has
height 5 while `oldest_height` is still 0, and the snapshot copies that
stale 0. -/
theorem oldest_height_not_maintained :
    (EventLog.new.add { block_height := 5, events := [evA] }).head.getLast?.map
        LogEntry.block_height = some 5
    ∧ (EventLog.new.add { block_height := 5, events := [evA] }).oldest_height = 0
    ∧ (EventLog.new.add { block_height := 5, events := [evA] }).oldest_height ≠ 5
    ∧ ((EventLog.new.add { block_height := 5, events := [evA] }).snapshot.map
        EventLogSnapshot.oldest_height = some 0)
    ∧ ∀ (s : EventLog) (es : List LogEntry),
        (addAll s es).oldest_height = s.oldest_height :=
  ⟨by decide, by decide, by decide, by decide,
    fun s es => addAll_oldest_height es s⟩

/-- C4 counterexample: the claim asserts a strictly decreasing height
walk under the spec's stated discipline, which only requires heights
handed to `add` to be non-decreasing.  Adding two entries at the same
height 3 respects that discipline, yet the walk from `head` visits
heights `[3, 3]`, which is not strictly decreasing. -/
theorem strict_height_decrease_counterexample :
    (([{ block_height := 3, events := [evA] },
       { block_height := 3, events := [evA] }].map
        LogEntry.block_height).Pairwise (· ≤ ·))
    ∧ ¬ (((addAll EventLog.new
          [{ block_height := 3, events := [evA] },
           { block_height := 3, events := [evA] }]).head.map
            LogEntry.block_height).Pairwise (· > ·)) := by
  constructor
  · decide
  · decide

/-- C4 (amended): after every operation (`new`, `add` with any entry,
`prune`), `head = []` iff `num_events = 0` and `num_events` equals the
sum of the event-batch lengths over the chain; and under the discipline
that entries are handed to `add` in non-decreasing height order, the
walk from `head` visits entries in non-increasing (rather than strictly
decreasing) height order. -/
theorem log_invariants_amended :
    (∀ s : EventLog, Reachable s →
      ((s.head = [] ↔ s.num_events = 0)
        ∧ s.num_events = (s.head.map (fun e => e.events.length)).sum))
    ∧ (∀ es : List LogEntry,
        (es.map LogEntry.block_height).Pairwise (· ≤ ·) →
        ((addAll EventLog.new es).head.map LogEntry.block_height).Pairwise
          (· ≥ ·)) := by
  constructor
  · intro s hs
    induction hs with
    | new => simp [EventLog.new]
    | add s entry hs ih =>
        by_cases he : entry.events = []
        · simpa [EventLog.add, he] using ih
        · rw [add_nonempty s entry he]
          obtain ⟨ih1, ih2⟩ := ih
          have hlen : entry.events.length ≠ 0 := by
            simpa [List.length_eq_zero] using he
          constructor
          · constructor
            · intro hcon
              exact absurd hcon (List.cons_ne_nil entry s.head)
            · intro hzero
              exact absurd
                (show s.num_events + entry.events.length = 0 from hzero)
                (by omega)
          · show s.num_events + entry.events.length
              = ((entry :: s.head).map (fun e => e.events.length)).sum
            rw [List.map_cons, List.sum_cons]
            omega
    | prune s hd n hs ih => simpa [EventLog.prune] using ih
  · intro es hmono
    rw [addAll_head es EventLog.new]
    simp only [EventLog.new, List.append_nil]
    rw [List.map_reverse, List.pairwise_reverse]
    have hsub : List.Sublist
        ((es.filter (fun e => !e.events.isEmpty)).map LogEntry.block_height)
        (es.map LogEntry.block_height) :=
      List.Sublist.map LogEntry.block_height (List.filter_sublist es)
    have hpw := hmono.sublist hsub
    exact hpw.imp (fun hab => hab)

/-- C4 witness: the amended invariants at a concrete reachable state and
at a concrete non-decreasing add sequence. -/
theorem log_invariants_amended_witness :
    (((EventLog.new.add en1).head = [] ↔ (EventLog.new.add en1).num_events = 0)
      ∧ (EventLog.new.add en1).num_events
        = ((EventLog.new.add en1).head.map (fun e => e.events.length)).sum)
    ∧ ((addAll EventLog.new [en1, en2]).head.map LogEntry.block_height).Pairwise
        (· ≥ ·) :=
  ⟨log_invariants_amended.1 _ (Reachable.add _ _ Reachable.new),
    log_invariants_amended.2 [en1, en2] (by decide)⟩

/-- C5: adding an entry with an empty event list is a no-op on all three
header fields (`add` returns before taking the lock, notifying, or
calling `prune`). -/
theorem add_empty_entry_noop (s : EventLog) (entry : LogEntry)
    (h : entry.events = []) :
    (s.add entry).num_events = s.num_events
    ∧ (s.add entry).oldest_height = s.oldest_height
    ∧ (s.add entry).head = s.head := by
  simp [EventLog.add, h]

/-- C5 witness: the no-op at a concrete populated log and empty entry. -/
theorem add_empty_entry_noop_witness :
    ({ block_height := 7, events := [] } : LogEntry).events = []
    ∧ ((sampleLog.add { block_height := 7, events := [] }).num_events
        = sampleLog.num_events
      ∧ (sampleLog.add { block_height := 7, events := [] }).oldest_height
        = sampleLog.oldest_height
      ∧ (sampleLog.add { block_height := 7, events := [] }).head
        = sampleLog.head) :=
  ⟨rfl, add_empty_entry_noop sampleLog { block_height := 7, events := [] } rfl⟩

/-- C6: on a log whose chain is empty (one that has never received a
non-empty entry), `try_iter` with any query that parses fails with
`EmptyLog`.  The call only reads the state (it takes `&self` under a
read lock), so the log is unchanged. -/
theorem try_iter_empty_log (s : EventLog) (q : String)
    (hhead : s.head = []) (hq : (QueryMatcher.parse q).isSome) :
    s.try_iter q = .error .EmptyLog := by
  obtain ⟨m, hm⟩ := Option.isSome_iff_exists.mp hq
  simp [EventLog.try_iter, hm, EventLog.try_iter_with_matcher,
    EventLog.snapshot, hhead]

/-- C6 witness: the fresh log and the concrete query `q1`. -/
theorem try_iter_empty_log_witness :
    EventLog.new.head = [] ∧ (QueryMatcher.parse q1).isSome
    ∧ EventLog.new.try_iter q1 = .error .EmptyLog :=
  ⟨rfl, by decide, try_iter_empty_log EventLog.new q1 rfl (by decide)⟩

/-- C7: `try_iter` with a query on which the parser fails returns
`InvalidQuery`, for every log state (the parse happens before any state
is read, and the call does not modify the log). -/
theorem try_iter_invalid_query (s : EventLog) (q : String)
    (hq : QueryMatcher.parse q = none) :
    s.try_iter q = .error .InvalidQuery := by
  simp [EventLog.try_iter, hq]

/-- C7 witness: the empty string fails to parse, on a populated log. -/
theorem try_iter_invalid_query_witness :
    QueryMatcher.parse "" = none
    ∧ sampleLog.try_iter "" = .error .InvalidQuery :=
  ⟨by decide, try_iter_invalid_query sampleLog "" (by decide)⟩

/-- C8: `wait_iter` never returns `Timeout`: a query that fails to
parse yields `InvalidQuery` immediately, and when the deadline elapses
before any wake-up produced a usable snapshot (every wake-up observed an
empty log), the call returns exactly the result of one final
unconditional `try_iter_with_matcher` on the state at the deadline — an
iterator if that log is non-empty, otherwise `EmptyLog`. -/
theorem wait_iter_no_timeout (wakes : List EventLog) (sfinal : EventLog)
    (q : String) :
    EventLog.wait_iter wakes sfinal q ≠ .error .Timeout
    ∧ (QueryMatcher.parse q = none →
        EventLog.wait_iter wakes sfinal q = .error .InvalidQuery)
    ∧ (∀ m : QueryMatcher, QueryMatcher.parse q = some m →
        (∀ s ∈ wakes, s.head = []) →
        EventLog.wait_iter wakes sfinal q = sfinal.try_iter_with_matcher m
        ∧ (sfinal.head = [] →
            EventLog.wait_iter wakes sfinal q = .error .EmptyLog)
        ∧ (sfinal.head ≠ [] →
            ∃ it, EventLog.wait_iter wakes sfinal q = .ok it)) := by
  refine ⟨?_, ?_, ?_⟩
  · intro h
    unfold EventLog.wait_iter at h
    cases hp : QueryMatcher.parse q with
    | none => rw [hp] at h; injection h with h2; cases h2
    | some m =>
        rw [hp] at h
        cases waitLoop_error sfinal m wakes _ h
  · intro hp
    simp [EventLog.wait_iter, hp]
  · intro m hp hempty
    have hw : EventLog.wait_iter wakes sfinal q = waitLoop sfinal m wakes := by
      simp [EventLog.wait_iter, hp]
    rw [hw, waitLoop_all_empty sfinal m wakes hempty]
    refine ⟨rfl, ?_, ?_⟩
    · intro hf
      simp [EventLog.try_iter_with_matcher, EventLog.snapshot, hf]
    · intro hf
      refine ⟨{ index := 0, query := m, node := sfinal.head }, ?_⟩
      unfold EventLog.try_iter_with_matcher
      rw [snapshot_of_ne _ hf]

/-- C8 witness: one wake-up on the still-empty log, deadline state
populated; the call returns the final attempt's iterator. -/
theorem wait_iter_no_timeout_witness :
    EventLog.wait_iter [EventLog.new] sampleLog q1 ≠ .error .Timeout
    ∧ EventLog.wait_iter [EventLog.new] sampleLog q1
      = sampleLog.try_iter_with_matcher mm1 := by
  have h := wait_iter_no_timeout [EventLog.new] sampleLog q1
  exact ⟨h.1, (h.2.2 mm1 (by decide) (by decide)).1⟩

/-- C9: two `try_iter` calls with the same query on the same log state
return iterators producing identical event sequences (read determinism:
the call takes a snapshot of the state and nothing else). -/
theorem try_iter_idempotent (s : EventLog) (q : String)
    (it1 it2 : EventLogIterator)
    (h1 : s.try_iter q = .ok it1) (h2 : s.try_iter q = .ok it2) :
    iterEvents it1 = iterEvents it2 := by
  have h := h1.symm.trans h2
  injection h with h
  rw [h]

/-- C9 witness: the repository's test query on the sample log. -/
theorem try_iter_idempotent_witness :
    sampleLog.try_iter q2 = .ok { index := 0, query := mm2, node := [en2, en1] }
    ∧ iterEvents { index := 0, query := mm2, node := [en2, en1] }
      = iterEvents { index := 0, query := mm2, node := [en2, en1] } :=
  ⟨rfl, try_iter_idempotent sampleLog q2 _ _ rfl rfl⟩

/-- C10: with any matcher and any state whose chain is non-empty,
`try_iter_with_matcher` succeeds and returns the iterator positioned at
the snapshot's head with index 0; and every error `try_iter` can return
is `InvalidQuery` or `EmptyLog` — in particular never `Timeout`. -/
theorem try_iter_with_matcher_total (m : QueryMatcher) (s : EventLog) :
    (∀ (e : LogEntry) (rest : List LogEntry), s.head = e :: rest →
      s.try_iter_with_matcher m
        = .ok { index := 0, query := m, node := e :: rest })
    ∧ (∀ (q : String) (err : IterError), s.try_iter q = .error err →
        err = .InvalidQuery ∨ err = .EmptyLog)
    ∧ (∀ q : String, s.try_iter q ≠ .error .Timeout) := by
  have herr : ∀ (q : String) (err : IterError), s.try_iter q = .error err →
      err = .InvalidQuery ∨ err = .EmptyLog := by
    intro q err h
    unfold EventLog.try_iter at h
    cases hp : QueryMatcher.parse q with
    | none => rw [hp] at h; injection h with h2; exact .inl h2.symm
    | some m2 =>
        rw [hp] at h
        exact .inr (try_iter_with_matcher_error s m2 err h)
  refine ⟨?_, herr, ?_⟩
  · intro e rest hh
    simp [EventLog.try_iter_with_matcher, EventLog.snapshot, hh]
  · intro q h
    rcases herr q .Timeout h with h2 | h2 <;> cases h2

/-- C10 witness: the sample log with its two-node chain, and a failing
parse showing the error classification. -/
theorem try_iter_with_matcher_total_witness :
    sampleLog.try_iter_with_matcher mm2
      = .ok { index := 0, query := mm2, node := [en2, en1] }
    ∧ (IterError.InvalidQuery = .InvalidQuery
        ∨ IterError.InvalidQuery = .EmptyLog) :=
  ⟨(try_iter_with_matcher_total mm2 sampleLog).1 en2 [en1] rfl,
    (try_iter_with_matcher_total mm2 sampleLog).2.1 "" .InvalidQuery rfl⟩
